import Mathlib

/-!
Verification of the wechat-connector-for-openclaw ingestion pipeline.

Shallow embedding of the Python sources:
  * `src/connector.py`    — `WeChatConnector`: extraction, classification,
    identity hashing, dispatch orchestration (`process_message`, `poll_once`);
  * `src/message_dedup.py` — `MessageDeduplicator`: persistent dedup set;
  * `src/mmkv_reader.py`  — `MMKVReader`: change detection (`has_new_content`)
    and the duplicate `extract_pushcontent`.

Python strings are modelled as Lean `String`, Python `set` as a
duplicate-free `List String` (insertion via `List.insert`), the persisted
state file as an `Option String` (file contents, `none` = absent), and the
webhook / clock environment as explicit oracles indexed by a call counter.
-/

/-! ## Python string helpers -/

/-- Whitespace class used by Python's `str.strip()` and the regex class
`\s` on the ASCII range (space, tab, LF, CR, VT, FF).  Python additionally
treats some non-ASCII code points as whitespace; none of the sentinels,
separators or tags of this program contain them, and every definition below
uses this one class on both the code side and the spec side. -/
def isPySpace (c : Char) : Bool :=
  c = ' ' || c = '\t' || c = '\n' || c = '\r' || c = '\x0b' || c = '\x0c'

/-- Python `str.strip()`: drop leading and trailing whitespace. -/
def pyStrip (s : String) : String :=
  ⟨(s.data.dropWhile isPySpace).reverse.dropWhile isPySpace |>.reverse⟩

/-- Find the first occurrence of `sep` in the character list; return the
characters before it and the characters after it. -/
def findSplit (sep : List Char) : List Char → Option (List Char × List Char)
  | [] => none
  | c :: cs =>
    if sep.isPrefixOf (c :: cs) then some ([], (c :: cs).drop sep.length)
    else
      match findSplit sep cs with
      | some (l, r) => some (c :: l, r)
      | none => none

/-- Python `s.split(sep, 1)` for nonempty `sep`, restricted to the case the
caller already checked `sep in s`: `some (before, after)` at the first
occurrence of `sep`, `none` when `sep` does not occur. -/
def pySplit1 (sep s : String) : Option (String × String) :=
  match findSplit sep.data s.data with
  | some (l, r) => some (⟨l⟩, ⟨r⟩)
  | none => none

/-! ## Data model (`connector.py`) -/

/-- One raw fragment extracted from the dump text: the two capture groups of
the `pushcontent` tag pattern (`content`, `nickname`). -/
structure Fragment where
  content : String
  nickname : String
deriving DecidableEq, Repr

/-- The structured message returned by `WeChatConnector._parse_message`. -/
structure StructuredMessage where
  sender : String
  content : String
  is_group : Bool
  chat_name : String
deriving DecidableEq, Repr

/-- `WeChatConnector._parse_message` (connector.py lines 82–125).
Note that with `split(sep, 1)` and `sep` present the Python list `parts`
always has length 2, so the guards `if len(parts) > 1` always take their
then-branch; the embedding inlines that.  The function never returns `None`
in the source, so the `Optional` wrapper is dropped. -/
def parse_message (pc : Fragment) : StructuredMessage :=
  let nickname := pyStrip pc.nickname
  let content_text := pc.content
  let is_group := nickname = "群聊" || nickname = "group_with_AI"
  if is_group then
    match pySplit1 " : " content_text with
    | some (l, r) =>
      { sender := pyStrip l, content := pyStrip r,
        is_group := true, chat_name := "group_with_AI" }
    | none =>
      { sender := "未知", content := content_text,
        is_group := true, chat_name := "group_with_AI" }
  else
    match pySplit1 " : " content_text with
    | some (_, r) =>
      { sender := nickname, content := pyStrip r,
        is_group := false, chat_name := "Mwu！" }
    | none =>
      { sender := nickname, content := content_text,
        is_group := false, chat_name := "Mwu！" }

/-- The classification algorithm as worded in spec §4.2 (steps 1–3), written
independently of `parse_message` for the refinement theorem of claim C2:
trim the nickname; group iff it equals one of the two sentinels; group
branch falls back to the unknown-sender sentinel with content unmodified;
direct branch keeps the trimmed nickname as sender and falls back to the
entire original content. -/
def classifySpec (pc : Fragment) : StructuredMessage :=
  let n := pyStrip pc.nickname
  if n = "群聊" || n = "group_with_AI" then
    match pySplit1 " : " pc.content with
    | some (l, r) => ⟨pyStrip l, pyStrip r, true, "group_with_AI"⟩
    | none => ⟨"未知", pc.content, true, "group_with_AI"⟩
  else
    match pySplit1 " : " pc.content with
    | some (_, r) => ⟨n, pyStrip r, false, "Mwu！"⟩
    | none => ⟨n, pc.content, false, "Mwu！"⟩

example : parse_message ⟨"Alice : hi", "群聊"⟩ =
    ⟨"Alice", "hi", true, "group_with_AI"⟩ := by decide

example : parse_message ⟨"hello", "Bob"⟩ = ⟨"Bob", "hello", false, "Mwu！"⟩ := by
  decide

/-! ## MD5 (`hashlib.md5(...).hexdigest()` as used by `_compute_message_id`)

A direct implementation of MD5 (RFC 1321) over byte lists, with 32-bit
words represented as `Nat` reduced modulo `2 ^ 32`. -/

namespace MD5

def M32 : Nat := 4294967296

def add32 (a b : Nat) : Nat := (a + b) % M32

def not32 (x : Nat) : Nat := 4294967295 - x % M32

def rotl32 (x s : Nat) : Nat :=
  Nat.lor (((x % M32) <<< s) % M32) ((x % M32) >>> (32 - s))

/-- Per-round sine-derived constants `K[i] = floor(abs(sin(i+1)) * 2^32)`. -/
def K : List Nat :=
  [3614090360, 3905402710, 606105819, 3250441966, 4118548399, 1200080426,
   2821735955, 4249261313, 1770035416, 2336552879, 4294925233, 2304563134,
   1804603682, 4254626195, 2792965006, 1236535329, 4129170786, 3225465664,
   643717713, 3921069994, 3593408605, 38016083, 3634488961, 3889429448,
   568446438, 3275163606, 4107603335, 1163531501, 2850285829, 4243563512,
   1735328473, 2368359562, 4294588738, 2272392833, 1839030562, 4259657740,
   2763975236, 1272893353, 4139469664, 3200236656, 681279174, 3936430074,
   3572445317, 76029189, 3654602809, 3873151461, 530742520, 3299628645,
   4096336452, 1126891415, 2878612391, 4237533241, 1700485571, 2399980690,
   4293915773, 2240044497, 1873313359, 4264355552, 2734768916, 1309151649,
   4149444226, 3174756917, 718787259, 3951481745]

/-- Per-round left-rotation amounts. -/
def S : List Nat :=
  [7, 12, 17, 22, 7, 12, 17, 22, 7, 12, 17, 22, 7, 12, 17, 22,
   5, 9, 14, 20, 5, 9, 14, 20, 5, 9, 14, 20, 5, 9, 14, 20,
   4, 11, 16, 23, 4, 11, 16, 23, 4, 11, 16, 23, 4, 11, 16, 23,
   6, 10, 15, 21, 6, 10, 15, 21, 6, 10, 15, 21, 6, 10, 15, 21]

/-- Pad the message: append `0x80`, zero bytes up to 56 mod 64, then the
bit length as 8 little-endian bytes. -/
def padBytes (msg : List Nat) : List Nat :=
  let len := msg.length
  let zeros := (120 - ((len + 1) % 64)) % 64
  msg ++ 128 :: List.replicate zeros 0 ++
    (List.range 8).map (fun i => ((len * 8) >>> (8 * i)) % 256)

/-- Split a byte list into 64-byte chunks.  The fuel argument makes the
recursion structural; every step drops at least one element, so fuel
`l.length` (as supplied by `md5Words`) always suffices. -/
def chunks64 : Nat → List Nat → List (List Nat)
  | 0, _ => []
  | _, [] => []
  | fuel + 1, b :: rest => ((b :: rest).take 64) :: chunks64 fuel ((b :: rest).drop 64)

/-- Decode one 64-byte chunk into 16 little-endian 32-bit words. -/
def chunkWords (chunk : List Nat) : List Nat :=
  (List.range 16).map fun j =>
    chunk.getD (4 * j) 0 + 256 * chunk.getD (4 * j + 1) 0 +
      65536 * chunk.getD (4 * j + 2) 0 + 16777216 * chunk.getD (4 * j + 3) 0

/-- One of the 64 MD5 rounds. -/
def roundStep (m : List Nat) (st : Nat × Nat × Nat × Nat) (i : Nat) :
    Nat × Nat × Nat × Nat :=
  let a := st.1
  let b := st.2.1
  let c := st.2.2.1
  let d := st.2.2.2
  let fg : Nat × Nat :=
    if i < 16 then (Nat.lor (Nat.land b c) (Nat.land (not32 b) d), i)
    else if i < 32 then
      (Nat.lor (Nat.land d b) (Nat.land (not32 d) c), (5 * i + 1) % 16)
    else if i < 48 then
      (Nat.xor b (Nat.xor c d), (3 * i + 5) % 16)
    else (Nat.xor c (Nat.lor b (not32 d)), (7 * i) % 16)
  let f := (fg.1 + a + K.getD i 0 + m.getD fg.2 0) % M32
  (d, add32 b (rotl32 f (S.getD i 0)), b, c)

/-- Process one 64-byte chunk, updating the four state words. -/
def processChunk (st : Nat × Nat × Nat × Nat) (chunk : List Nat) :
    Nat × Nat × Nat × Nat :=
  let m := chunkWords chunk
  let r := (List.range 64).foldl (roundStep m) st
  (add32 st.1 r.1, add32 st.2.1 r.2.1, add32 st.2.2.1 r.2.2.1,
   add32 st.2.2.2 r.2.2.2)

/-- The four final state words of the MD5 digest of a byte list. -/
def md5Words (msg : List Nat) : Nat × Nat × Nat × Nat :=
  (chunks64 (padBytes msg).length (padBytes msg)).foldl processChunk
    (1732584193, 4023233417, 2562383102, 271733878)

/-- A 32-bit word as 4 little-endian bytes. -/
def wordLE (w : Nat) : List Nat :=
  [w % 256, (w >>> 8) % 256, (w >>> 16) % 256, (w >>> 24) % 256]

/-- The 16-byte MD5 digest of a byte list. -/
def md5Bytes (msg : List Nat) : List Nat :=
  let w := md5Words msg
  wordLE w.1 ++ wordLE w.2.1 ++ wordLE w.2.2.1 ++ wordLE w.2.2.2

def hexDigit (n : Nat) : Char := "0123456789abcdef".data.getD n '0'

/-- Lowercase hex rendering of a byte list, two digits per byte. -/
def bytesToHex : List Nat → List Char
  | [] => []
  | b :: t => hexDigit (b / 16 % 16) :: hexDigit (b % 16) :: bytesToHex t

/-- UTF-8 encoding of one code point (Python `str.encode('utf-8')`). -/
def utf8Bytes (n : Nat) : List Nat :=
  if n < 128 then [n]
  else if n < 2048 then [192 + n / 64, 128 + n % 64]
  else if n < 65536 then [224 + n / 4096, 128 + n / 64 % 64, 128 + n % 64]
  else [240 + n / 262144, 128 + n / 4096 % 64, 128 + n / 64 % 64, 128 + n % 64]

/-- UTF-8 bytes of a string. -/
def strBytes (s : String) : List Nat :=
  s.data.bind fun c => utf8Bytes c.toNat

/-- `hashlib.md5(s.encode('utf-8')).hexdigest()`. -/
def md5Hex (s : String) : String := ⟨bytesToHex (md5Bytes (strBytes s))⟩

end MD5

/-- Python's `f"{b}"` rendering of a `bool`. -/
def pyBoolStr (b : Bool) : String := if b then "True" else "False"

/-- `WeChatConnector._compute_message_id` (connector.py lines 127–134):
`md5(f"{is_group}:{sender}:{content}")` as a hex digest. -/
def compute_message_id (is_group : Bool) (sender content : String) : String :=
  MD5.md5Hex (pyBoolStr is_group ++ ":" ++ sender ++ ":" ++ content)

/-! ## Record extraction (`_extract_pushcontent`, connector.py lines 62–80;
identical code in `MMKVReader.extract_pushcontent`, mmkv_reader.py 204–225)

`re.findall(r'<pushcontent\s+content="([^"]*)"\s+nickname="([^"]*)"\s*/>', t)`
is embedded as a deterministic scanner.  The pattern is deterministic even
under regex backtracking: `[^"]*` can only stop at the first `"`, and the
greedy `\s+`/`\s*` runs are followed by non-whitespace literals, so giving
back characters can never produce an alternative match. -/

/-- Match a literal character sequence at the front of the input. -/
def litPrefix (lit : List Char) (cs : List Char) : Option (List Char) :=
  match lit, cs with
  | [], rest => some rest
  | _ :: _, [] => none
  | l :: ls, c :: rest => if c = l then litPrefix ls rest else none

/-- Match `\s+`: at least one whitespace character, maximal run. -/
def spaces1 (cs : List Char) : Option (List Char) :=
  match cs with
  | [] => none
  | c :: rest => if isPySpace c then some (rest.dropWhile isPySpace) else none

/-- Match `([^"]*)"`: capture up to the first double quote and consume it. -/
def captureToQuote : List Char → Option (List Char × List Char)
  | [] => none
  | c :: cs =>
    if c = '"' then some ([], cs)
    else
      match captureToQuote cs with
      | some (x, r) => some (c :: x, r)
      | none => none

/-- Match one full `pushcontent` tag at the front of the input, returning
the fragment (content and nickname capture groups) and the rest. -/
def matchTag (cs : List Char) : Option (Fragment × List Char) := do
  let cs ← litPrefix "<pushcontent".data cs
  let cs ← spaces1 cs
  let cs ← litPrefix "content=\"".data cs
  let (content, cs) ← captureToQuote cs
  let cs ← spaces1 cs
  let cs ← litPrefix "nickname=\"".data cs
  let (nickname, cs) ← captureToQuote cs
  let cs ← litPrefix "/>".data (cs.dropWhile isPySpace)
  pure (⟨⟨content⟩, ⟨nickname⟩⟩, cs)

theorem dropWhile_length_le (p : Char → Bool) (l : List Char) :
    (l.dropWhile p).length ≤ l.length := by
  induction l with
  | nil => simp
  | cons a t ih =>
    simp only [List.dropWhile_cons]
    split
    · exact Nat.le_succ_of_le ih
    · simp

theorem litPrefix_le {lit cs r : List Char} (h : litPrefix lit cs = some r) :
    r.length ≤ cs.length := by
  induction lit generalizing cs with
  | nil =>
    simp only [litPrefix, Option.some.injEq] at h
    exact h ▸ Nat.le_refl _
  | cons l ls ih =>
    match cs with
    | [] => simp [litPrefix] at h
    | c :: rest =>
      simp only [litPrefix] at h
      split at h
      · exact Nat.le_trans (ih h) (by simp)
      · exact absurd h (by simp)

theorem spaces1_lt {cs r : List Char} (h : spaces1 cs = some r) :
    r.length < cs.length := by
  match cs with
  | [] => simp [spaces1] at h
  | c :: rest =>
    simp only [spaces1] at h
    split at h
    · cases h
      exact Nat.lt_succ_of_le (dropWhile_length_le _ _)
    · exact absurd h (by simp)

theorem captureToQuote_lt {cs : List Char} {x r : List Char}
    (h : captureToQuote cs = some (x, r)) : r.length < cs.length := by
  induction cs generalizing x r with
  | nil => simp [captureToQuote] at h
  | cons c rest ih =>
    simp only [captureToQuote] at h
    split at h
    · cases h; simp
    · match hr : captureToQuote rest with
      | some (x', r') =>
        rw [hr] at h
        cases h
        exact Nat.lt_succ_of_lt (ih hr)
      | none => rw [hr] at h; exact absurd h (by simp)

theorem matchTag_lt {cs : List Char} {f : Fragment} {r : List Char}
    (h : matchTag cs = some (f, r)) : r.length < cs.length := by
  simp only [matchTag, bind, Option.bind_eq_some, pure, Option.some.injEq,
    Prod.exists, Prod.mk.injEq] at h
  obtain ⟨c1, h1, c2, h2, c3, h3, ct, c4, h4, c5, h5, c6, h6, nk, c7, h7,
    c8, h8, _, hr⟩ := h
  have l1 := litPrefix_le h1
  have l2 := spaces1_lt h2
  have l3 := litPrefix_le h3
  have l4 := captureToQuote_lt h4
  have l5 := spaces1_lt h5
  have l6 := litPrefix_le h6
  have l7 := captureToQuote_lt h7
  have l8 := litPrefix_le h8
  have l9 : (c7.dropWhile isPySpace).length ≤ c7.length :=
    dropWhile_length_le _ _
  subst hr
  omega

/-- The scan loop of `re.findall`: try to match at each position, continue
after a match (matches are non-overlapping), advance one character on
failure.  The fuel argument makes the recursion structural; by
`matchTag_lt` every step consumes at least one character, so fuel
`cs.length` always suffices (`scanTagsFuel_eq` below makes this precise). -/
def scanTagsFuel : Nat → List Char → List Fragment
  | 0, _ => []
  | fuel + 1, cs =>
    match cs with
    | [] => []
    | c :: rest =>
      match matchTag (c :: rest) with
      | some (f, r) => f :: scanTagsFuel fuel r
      | none => scanTagsFuel fuel rest

/-- Any fuel of at least the input length gives the same scan result. -/
theorem scanTagsFuel_eq (f : Nat) :
    ∀ (g : Nat) (cs : List Char), cs.length ≤ f → cs.length ≤ g →
      scanTagsFuel f cs = scanTagsFuel g cs := by
  induction f with
  | zero =>
    intro g cs hf _
    have : cs = [] := List.length_eq_zero.mp (Nat.le_zero.mp hf)
    subst this
    cases g <;> rfl
  | succ f ih =>
    intro g cs hf hg
    cases cs with
    | nil => cases g <;> rfl
    | cons c rest =>
      cases g with
      | zero => simp at hg
      | succ g' =>
        simp only [scanTagsFuel]
        cases hm : matchTag (c :: rest) with
        | some fr =>
          obtain ⟨fr1, r⟩ := fr
          have hlt := matchTag_lt hm
          simp only [List.length_cons] at hf hg hlt
          exact congrArg (List.cons fr1) (ih g' r (by omega) (by omega))
        | none =>
          simp only [List.length_cons] at hf hg
          exact ih g' rest (by omega) (by omega)

/-- `WeChatConnector._extract_pushcontent` (= `MMKVReader.extract_pushcontent`):
all matches of the tag pattern, in left-to-right source order. -/
def extract_pushcontent (content : String) : List Fragment :=
  scanTagsFuel content.data.length content.data

/-! ## JSON (`json.dump` / `json.load` as used by `message_dedup.py`)

The persisted state file is the exact text that
`json.dump(data, f, ensure_ascii=False, indent=2)` writes for
`data = {"processed_ids": [...], "last_update": ts}`, and loading goes
through a JSON value parser.  Numbers are modelled as integers only; the
state file never contains JSON numbers, and every concrete non-document
input used in a theorem below is rejected by Python's parser as well. -/

namespace PyJson

/-- JSON values. -/
inductive JVal where
  | jnull
  | jbool (b : Bool)
  | jnum (n : Int)
  | jstr (s : String)
  | jarr (xs : List JVal)
  | jobj (kvs : List (String × JVal))

/-- One character of Python's JSON string encoder (`ensure_ascii=False`):
escape the quote, the backslash and control characters, emit everything
else verbatim. -/
def escChar (c : Char) : List Char :=
  if c = '"' then ['\\', '"']
  else if c = '\\' then ['\\', '\\']
  else if c = '\n' then ['\\', 'n']
  else if c = '\t' then ['\\', 't']
  else if c = '\r' then ['\\', 'r']
  else if c = '\x08' then ['\\', 'b']
  else if c = '\x0c' then ['\\', 'f']
  else if c.toNat < 32 then
    ['\\', 'u', '0', '0', MD5.hexDigit (c.toNat / 16), MD5.hexDigit (c.toNat % 16)]
  else [c]

/-- A JSON string literal for `s`. -/
def encStr (s : String) : String := ⟨'"' :: (s.data.flatMap escChar ++ ['"'])⟩

/-- The array items as serialized with `indent=2` at nesting depth 1:
separated by `",\n    "`. -/
def encItems : List String → String
  | [] => ""
  | [x] => encStr x
  | x :: xs => encStr x ++ ",\n    " ++ encItems xs

/-- A JSON array of strings as serialized with `indent=2` at depth 1. -/
def encArr (ids : List String) : String :=
  match ids with
  | [] => "[]"
  | _ => "[\n    " ++ encItems ids ++ "\n  ]"

/-- The exact file text `MessageDeduplicator._save` writes:
`json.dump({"processed_ids": ids, "last_update": ts}, f,
ensure_ascii=False, indent=2)`. -/
def dumpsState (ids : List String) (ts : String) : String :=
  "\x7b\n  \"processed_ids\": " ++ encArr ids ++ ",\n  \"last_update\": " ++
    encStr ts ++ "\n\x7d"

/-- JSON insignificant whitespace. -/
def skipWs : List Char → List Char
  | [] => []
  | c :: cs =>
    if c = ' ' || c = '\n' || c = '\t' || c = '\r' then skipWs cs else c :: cs

def hexVal (c : Char) : Option Nat :=
  if '0' ≤ c ∧ c ≤ '9' then some (c.toNat - 48)
  else if 'a' ≤ c ∧ c ≤ 'f' then some (c.toNat - 87)
  else if 'A' ≤ c ∧ c ≤ 'F' then some (c.toNat - 55)
  else none

/-- Decode the character after a backslash for the single-character
escapes.  Surrogate `\uXXXX` escapes and the four-digit form are handled
in `parseStrBody`; other characters after a backslash are rejected. -/
def simpleEsc (e : Char) : Option Char :=
  if e = '"' then some '"'
  else if e = '\\' then some '\\'
  else if e = '/' then some '/'
  else if e = 'b' then some '\x08'
  else if e = 'f' then some '\x0c'
  else if e = 'n' then some '\n'
  else if e = 'r' then some '\r'
  else if e = 't' then some '\t'
  else none

/-- Parse the body of a string literal, after the opening quote; Python's
strict mode rejects raw control characters.  A `\uXXXX` escape in the
surrogate range is mapped to the replacement character; such escapes never
occur in files written by `_save` and no theorem below depends on them. -/
def parseStrBody : List Char → Option (List Char × List Char)
  | [] => none
  | c :: cs =>
    if c = '"' then some ([], cs)
    else if c = '\\' then
      match cs with
      | 'u' :: h1 :: h2 :: h3 :: h4 :: rest =>
        match hexVal h1, hexVal h2, hexVal h3, hexVal h4 with
        | some a, some b, some c2, some d =>
          let n := ((a * 16 + b) * 16 + c2) * 16 + d
          let ch := if 55296 ≤ n ∧ n < 57344 then '\uFFFD' else Char.ofNat n
          match parseStrBody rest with
          | some (x, r) => some (ch :: x, r)
          | none => none
        | _, _, _, _ => none
      | e :: rest =>
        match simpleEsc e with
        | some ch =>
          match parseStrBody rest with
          | some (x, r) => some (ch :: x, r)
          | none => none
        | none => none
      | [] => none
    else if c.toNat < 32 then none
    else
      match parseStrBody cs with
      | some (x, r) => some (c :: x, r)
      | none => none

def digitRun : List Char → List Char × List Char
  | [] => ([], [])
  | c :: cs =>
    if c.isDigit then
      let p := digitRun cs
      (c :: p.1, p.2)
    else ([], c :: cs)

def digitsVal (ds : List Char) : Nat :=
  ds.foldl (fun a c => 10 * a + (c.toNat - 48)) 0

/-- Parse a JSON integer (optional minus sign and a digit run). -/
def parseNum (cs : List Char) : Option (JVal × List Char) :=
  match cs with
  | '-' :: rest =>
    match digitRun rest with
    | ([], _) => none
    | (ds, r) => some (JVal.jnum (-(digitsVal ds : Int)), r)
  | _ =>
    match digitRun cs with
    | ([], _) => none
    | (ds, r) => some (JVal.jnum (digitsVal ds), r)

mutual

/-- Parse one JSON value (leading whitespace allowed). -/
def parseVal : Nat → List Char → Option (JVal × List Char)
  | 0, _ => none
  | fuel + 1, cs =>
    match skipWs cs with
    | [] => none
    | c :: cs' =>
      if c = '"' then
        match parseStrBody cs' with
        | some (x, r) => some (JVal.jstr ⟨x⟩, r)
        | none => none
      else if c = '\x7b' then
        match skipWs cs' with
        | '\x7d' :: r => some (JVal.jobj [], r)
        | cs'' =>
          match parseMembers fuel cs'' with
          | some (ms, r) => some (JVal.jobj ms, r)
          | none => none
      else if c = '[' then
        match skipWs cs' with
        | ']' :: r => some (JVal.jarr [], r)
        | cs'' =>
          match parseElems fuel cs'' with
          | some (vs, r) => some (JVal.jarr vs, r)
          | none => none
      else if c = 't' then
        match litPrefix "rue".data cs' with
        | some r => some (JVal.jbool true, r)
        | none => none
      else if c = 'f' then
        match litPrefix "alse".data cs' with
        | some r => some (JVal.jbool false, r)
        | none => none
      else if c = 'n' then
        match litPrefix "ull".data cs' with
        | some r => some (JVal.jnull, r)
        | none => none
      else if c = '-' || c.isDigit then parseNum (c :: cs')
      else none

/-- Parse the elements of a nonempty array, positioned at the first
element, through the closing bracket. -/
def parseElems : Nat → List Char → Option (List JVal × List Char)
  | 0, _ => none
  | fuel + 1, cs =>
    match parseVal fuel cs with
    | some (v, r) =>
      match skipWs r with
      | ',' :: r' =>
        match parseElems fuel r' with
        | some (vs, rest) => some (v :: vs, rest)
        | none => none
      | ']' :: rest => some ([v], rest)
      | _ => none
    | none => none

/-- Parse the members of a nonempty object, positioned at the first key,
through the closing brace. -/
def parseMembers : Nat → List Char → Option (List (String × JVal) × List Char)
  | 0, _ => none
  | fuel + 1, cs =>
    match skipWs cs with
    | '"' :: cs1 =>
      match parseStrBody cs1 with
      | some (k, r) =>
        match skipWs r with
        | ':' :: r1 =>
          match parseVal fuel r1 with
          | some (v, r2) =>
            match skipWs r2 with
            | ',' :: r3 =>
              match parseMembers fuel r3 with
              | some (ms, rest) => some ((⟨k⟩, v) :: ms, rest)
              | none => none
            | '\x7d' :: rest => some ([(⟨k⟩, v)], rest)
            | _ => none
          | none => none
        | _ => none
      | none => none
    | _ => none

end

/-- `json.loads`: parse one JSON document followed only by whitespace. -/
def loads (s : String) : Option JVal :=
  match parseVal (2 * s.length + 2) s.data with
  | some (v, r) => match skipWs r with | [] => some v | _ => none
  | none => none

end PyJson

/-! ## `MessageDeduplicator` (message_dedup.py)

The Python `set` is modelled as a duplicate-free list (`List.insert`
prepends only when absent; `List.dedup` models the `set(...)` conversion at
load).  Set iteration order is unspecified in Python, so the serialized
list order is the model's canonical one; no property below depends on it.
The file system at `storage_path` is the `storage` field (`none` = file
absent).  `datetime.now().isoformat()` is an explicit `now` argument.
`_save`'s own try/except (persist failure, spec §7c) is not modelled: the
write always succeeds here, and no claim below is about that failure. -/

open PyJson in
/-- `set(x)` for a parsed JSON value, projected to its `String` members,
as used by `set(data.get("processed_ids", []))`:
  * an array is hashable-element-wise converted; arrays or objects inside
    raise `TypeError` (caught by `_load` → `none` here); non-string
    hashable elements can never equal a string message id, so only the
    string elements are kept;
  * a string iterates to its characters, an object to its keys;
  * `None`, booleans and numbers are not iterable (`TypeError`). -/
def pySetStrings : JVal → Option (List String)
  | JVal.jarr xs =>
    if xs.any fun x =>
        match x with
        | JVal.jarr _ => true
        | JVal.jobj _ => true
        | _ => false
    then none
    else
      some (xs.filterMap fun x =>
        match x with
        | JVal.jstr s => some s
        | _ => none).dedup
  | JVal.jstr s => some (s.data.map (fun c => String.mk [c])).dedup
  | JVal.jobj kvs => some (kvs.map (·.1)).dedup
  | _ => none

open PyJson in
/-- `dict.get(k, default)` over parsed JSON members: Python's `dict` keeps
the last of duplicate keys. -/
def getKey (kvs : List (String × JVal)) (k : String) : Option JVal :=
  (kvs.reverse.find? fun kv => kv.1 == k).map (·.2)

open PyJson in
/-- `MessageDeduplicator._load` (message_dedup.py lines 36–46) run at
construction: absent file keeps the empty set, any exception while reading
or parsing resets to the empty set. -/
def loadIds (file : Option String) : List String :=
  match file with
  | none => []
  | some text =>
    match PyJson.loads text with
    | none => []
    | some v =>
      match v with
      | JVal.jobj kvs =>
        match getKey kvs "processed_ids" with
        | none => []
        | some ids => (pySetStrings ids).getD []
      | _ => []

/-- State of one `MessageDeduplicator` instance together with the file at
its `storage_path`. -/
structure MessageDeduplicator where
  processed_ids : List String
  storage : Option String
deriving DecidableEq, Repr

/-- `MessageDeduplicator.__init__`: store the path, start from the empty
set, then `_load` prior state (never raising). -/
def newDeduplicator (file : Option String) : MessageDeduplicator :=
  { processed_ids := loadIds file, storage := file }

/-- `MessageDeduplicator.is_processed`: membership in the in-memory set. -/
def is_processed (d : MessageDeduplicator) (message_id : String) : Bool :=
  d.processed_ids.contains message_id

/-- `MessageDeduplicator.mark_processed`: add to the set (idempotent) and
`_save`: rewrite the whole state file with all ids and a fresh timestamp. -/
def mark_processed (message_id : String) (now : String)
    (d : MessageDeduplicator) : MessageDeduplicator :=
  let ids := d.processed_ids.insert message_id
  { processed_ids := ids, storage := some (PyJson.dumpsState ids now) }

/-! ## `WeChatConnector` pipeline (connector.py)

`_send_to_webhook` performs one HTTP POST and reports success; it is
modelled as an oracle `webhook : Nat → Bool` indexed by a call counter
(the result covers timeouts, refusals and non-200 statuses uniformly —
all return `False` in the source).  `datetime.now()` inside `_save` is the
oracle `clock : Nat → String` on the same counter.  The `log` field
records each webhook call made, as `(message_id, result)`. -/

/-- The dedup key of a fragment: `_compute_message_id` applied to the
parsed message, as in `process_message` lines 182–192. -/
def fragment_message_id (pc : Fragment) : String :=
  let msg := parse_message pc
  compute_message_id msg.is_group msg.sender msg.content

/-- Result of `process_message`. -/
structure StepResult where
  ok : Bool
  calls : Nat
  dedup : MessageDeduplicator
  log : List (String × Bool)
deriving Repr

/-- `WeChatConnector.process_message` (connector.py lines 171–210): parse,
compute the id, skip when known, otherwise dispatch and mark only on
success.  (`if not msg` on line 183 is dead: `_parse_message` always
returns a non-empty dict.) -/
def process_message (webhook : Nat → Bool) (clock : Nat → String) (k : Nat)
    (dedup : MessageDeduplicator) (pc : Fragment) : StepResult :=
  let mid := fragment_message_id pc
  if is_processed dedup mid then ⟨false, k, dedup, []⟩
  else if webhook k then
    ⟨true, k + 1, mark_processed mid (clock k) dedup, [(mid, true)]⟩
  else ⟨false, k + 1, dedup, [(mid, false)]⟩

/-- Result of one poll cycle. -/
structure CycleResult where
  processed_count : Nat
  calls : Nat
  dedup : MessageDeduplicator
  log : List (String × Bool)
deriving Repr

/-- The `for pc in pushcontents` loop of `poll_once` (lines 232–235). -/
def process_all (webhook : Nat → Bool) (clock : Nat → String) (k : Nat)
    (dedup : MessageDeduplicator) : List Fragment → CycleResult
  | [] => ⟨0, k, dedup, []⟩
  | pc :: rest =>
    let r := process_message webhook clock k dedup pc
    let rr := process_all webhook clock r.calls r.dedup rest
    ⟨(if r.ok then 1 else 0) + rr.processed_count, rr.calls, rr.dedup,
      r.log ++ rr.log⟩

/-- `WeChatConnector.poll_once` (connector.py lines 212–237): the dump text
read by `self.reader.read_text_content()` is the `text` argument (`none` =
read failure, cycle is a no-op; the early return on an empty fragment list
coincides with the loop over `[]`). -/
def poll_once (webhook : Nat → Bool) (clock : Nat → String) (k : Nat)
    (dedup : MessageDeduplicator) (text : Option String) : CycleResult :=
  match text with
  | none => ⟨0, k, dedup, []⟩
  | some t => process_all webhook clock k dedup (extract_pushcontent t)

/-! ## `MMKVReader.has_new_content` (mmkv_reader.py lines 131–159)

The file stat fetched over ADB is the `stat` argument (`none` = `stat`
failed / unparsable).  The cached `_last_mtime` / `_last_size` pair is
explicit state. -/

/-- The reader's cached observation state (`_last_mtime`, `_last_size`),
initialized to `None` and `0` in `__init__`. -/
structure ReaderState where
  last_mtime : Option Int
  last_size : Int
deriving DecidableEq, Repr

def initialReaderState : ReaderState := ⟨none, 0⟩

/-- `MMKVReader.has_new_content`: `False` without state update when the
stat is unavailable; `True` on the first successful observation; then
`True` iff mtime or size changed, always updating the cache. -/
def has_new_content (st : ReaderState) (stat : Option (Int × Int)) :
    Bool × ReaderState :=
  match stat with
  | none => (false, st)
  | some (mtime, size) =>
    match st.last_mtime with
    | none => (true, ⟨some mtime, size⟩)
    | some lm => (mtime != lm || size != st.last_size, ⟨some mtime, size⟩)

/-! ## Supporting lemmas -/

theorem strDataAppend (a b : String) : (a ++ b).data = a.data ++ b.data := rfl

theorem bytesToHex_length (l : List Nat) :
    (MD5.bytesToHex l).length = 2 * l.length := by
  induction l with
  | nil => rfl
  | cons b t ih => simp [MD5.bytesToHex, ih]; omega

theorem md5Hex_length (s : String) : (MD5.md5Hex s).length = 32 := by
  show (MD5.bytesToHex (MD5.md5Bytes (MD5.strBytes s))).length = 32
  rw [bytesToHex_length]
  simp [MD5.md5Bytes, MD5.wordLE]

/-! ## Claims -/

/-- C2: `_parse_message` is total (a Lean function) and follows the spec's
asymmetric classification algorithm (`classifySpec`, transcribed from spec
§4.2): group sentinels force the group label and the split/trim on the
first `" : "` with the unknown-sender fallback keeping content unmodified,
while the direct branch keeps the trimmed nickname as sender and falls
back to the entire original content when the separator is absent; the two
concrete examples from the spec evaluate as stated. -/
theorem C2_classify_follows_spec :
    (∀ pc : Fragment, parse_message pc = classifySpec pc) ∧
    parse_message ⟨"Alice : hi", "群聊"⟩ =
      ⟨"Alice", "hi", true, "group_with_AI"⟩ ∧
    parse_message ⟨"hello", "Bob"⟩ = ⟨"Bob", "hello", false, "Mwu！"⟩ :=
  ⟨fun _ => rfl, by decide, by decide⟩

/-- C3: `_compute_message_id` is the fixed-width (32 hex characters) MD5
digest of the canonical key `"{is_group}:{sender}:{content}"` with the
boolean in Python's canonical textual form (`True` / `False`).  It is a
plain function of its three arguments in this embedding — no I/O, salt or
process identity appears in its definition — so equal inputs give equal
outputs by construction. -/
theorem C3_identity_deterministic_key (s c : String) :
    compute_message_id true s c = MD5.md5Hex ("True:" ++ s ++ ":" ++ c) ∧
    compute_message_id false s c = MD5.md5Hex ("False:" ++ s ++ ":" ++ c) ∧
    ∀ g : Bool, (compute_message_id g s c).length = 32 :=
  ⟨rfl, rfl, fun _ => md5Hex_length _⟩

set_option maxRecDepth 8000 in
/-- C4: the unescaped `":"` join makes `_compute_message_id` non-injective
on `(sender, content)` with certainty: `("a", "b:c")` and `("a:b", "c")`
produce character-for-character identical canonical keys, hence identical
identities, although the two messages differ in both fields; after the
first is marked, the second is already "processed". -/
theorem C4_identity_collision :
    ("False:" ++ "a" ++ ":" ++ "b:c" = "False:" ++ "a:b" ++ ":" ++ "c") ∧
    compute_message_id false "a" "b:c" = compute_message_id false "a:b" "c" ∧
    ("a" ≠ "a:b" ∧ "b:c" ≠ "c") ∧
    is_processed
      (mark_processed (compute_message_id false "a" "b:c") "2026-01-01T00:00:00"
        (newDeduplicator none))
      (compute_message_id false "a:b" "c") = true :=
  ⟨by decide, rfl, by decide, by decide⟩

/-- C10 counterexample: the source collaborator's `has_new_content` does
NOT always report true on its first call: when the file stat is
unavailable (`get_file_stat` returns `None`, mmkv_reader.py lines 138–140)
the very first call reports false. -/
theorem C10_counterexample :
    (has_new_content initialReaderState none).1 = false := rfl

/-- C10 (amended): when the stat is unavailable the call reports false and
leaves the observation state unchanged; the first call with an available
stat reports true; a later call with an available stat reports true iff
the modification time or size differs from the last observed values, and
it always updates the observed values. -/
theorem C10_change_detection :
    (∀ st : ReaderState, has_new_content st none = (false, st)) ∧
    (∀ m s : Int, has_new_content initialReaderState (some (m, s)) =
      (true, ⟨some m, s⟩)) ∧
    (∀ lm ls m s : Int,
      ((has_new_content ⟨some lm, ls⟩ (some (m, s))).1 = true ↔
        (m ≠ lm ∨ s ≠ ls)) ∧
      (has_new_content ⟨some lm, ls⟩ (some (m, s))).2 = ⟨some m, s⟩) := by
  refine ⟨fun st => rfl, fun m s => rfl, fun lm ls m s => ⟨?_, rfl⟩⟩
  simp [has_new_content]

theorem is_processed_iff (d : MessageDeduplicator) (x : String) :
    is_processed d x = true ↔ x ∈ d.processed_ids := List.elem_iff

theorem is_processed_mark (d : MessageDeduplicator) (x y t : String) :
    is_processed (mark_processed y t d) x = true ↔
      x = y ∨ is_processed d x = true := by
  simp [is_processed, mark_processed, List.elem_iff, List.mem_insert_iff]

/-- C5: when the webhook dispatch returns false, `process_message` leaves
the `MessageDeduplicator` exactly as it was (nothing is marked, nothing is
saved); when the message was new it reports failure and logs the single
failed attempt, and reprocessing the same fragment afterwards calls the
webhook again (its log is that one new attempt); and in general an
identity is marked by `process_message` only if it was already known or
its dispatch returned true. -/
theorem C5_dispatch_failure_leaves_unmarked
    (webhook : Nat → Bool) (clock : Nat → String) (k : Nat)
    (d : MessageDeduplicator) (pc : Fragment)
    (hfail : webhook k = false) :
    (process_message webhook clock k d pc).dedup = d ∧
    (is_processed d (fragment_message_id pc) = false →
      process_message webhook clock k d pc =
        ⟨false, k + 1, d, [(fragment_message_id pc, false)]⟩ ∧
      (process_message webhook clock
          (process_message webhook clock k d pc).calls
          (process_message webhook clock k d pc).dedup pc).log =
        [(fragment_message_id pc,
          webhook (process_message webhook clock k d pc).calls)]) ∧
    (∀ (k2 : Nat) (d2 : MessageDeduplicator) (x : String),
      is_processed (process_message webhook clock k2 d2 pc).dedup x = true →
      is_processed d2 x = true ∨
        (x = fragment_message_id pc ∧ webhook k2 = true)) := by
  refine ⟨?_, ?_, ?_⟩
  · simp only [process_message, hfail, Bool.false_eq_true, if_false]
    split <;> rfl
  · intro hnew
    simp only [process_message, hfail, hnew, Bool.false_eq_true, if_false]
    refine ⟨trivial, ?_⟩
    cases hw : webhook (k + 1) <;> simp [hw, hnew]
  · intro k2 d2 x hx
    simp only [process_message] at hx
    split at hx
    · exact Or.inl hx
    · split at hx
      · rcases (is_processed_mark _ _ _ _).mp hx with h | h
        · exact Or.inr ⟨h, by assumption⟩
        · exact Or.inl h
      · exact Or.inl hx

/-- Witness for C5 at a concrete failing webhook and fragment. -/
theorem C5_dispatch_failure_witness :
    ((fun _ : Nat => false) 0 = false) ∧
    (process_message (fun _ => false) (fun _ => "T") 0 (newDeduplicator none)
        ⟨"hello", "Bob"⟩).dedup = newDeduplicator none :=
  ⟨rfl, (C5_dispatch_failure_leaves_unmarked (fun _ => false) (fun _ => "T") 0
      (newDeduplicator none) ⟨"hello", "Bob"⟩ rfl).1⟩

/-- Number of successful webhook dispatches of identity `i` in a log. -/
def countSucc (i : String) (log : List (String × Bool)) : Nat :=
  (log.filter fun e => e.1 == i && e.2).length

theorem countSucc_append (i : String) (a b : List (String × Bool)) :
    countSucc i (a ++ b) = countSucc i a + countSucc i b := by
  simp [countSucc, List.filter_append]

theorem pm_invariant (webhook : Nat → Bool) (clock : Nat → String) (k : Nat)
    (d : MessageDeduplicator) (pc : Fragment) (i : String) :
    countSucc i (process_message webhook clock k d pc).log ≤ 1 ∧
    (is_processed d i = true →
      countSucc i (process_message webhook clock k d pc).log = 0) ∧
    (1 ≤ countSucc i (process_message webhook clock k d pc).log →
      is_processed (process_message webhook clock k d pc).dedup i = true) ∧
    (is_processed d i = true →
      is_processed (process_message webhook clock k d pc).dedup i = true) := by
  simp only [process_message]
  split
  · simp [countSucc]
  · split
    · by_cases hi : fragment_message_id pc = i
      · subst hi
        refine ⟨by simp [countSucc], ?_, ?_, ?_⟩
        · intro hp; simp_all
        · intro _; exact (is_processed_mark _ _ _ _).mpr (Or.inl rfl)
        · intro hp; exact (is_processed_mark _ _ _ _).mpr (Or.inr hp)
      · refine ⟨?_, ?_, ?_, ?_⟩
        · simp [countSucc, hi]
        · intro _; simp [countSucc, hi]
        · intro hc; simp [countSucc, hi] at hc
        · intro hp; exact (is_processed_mark _ _ _ _).mpr (Or.inr hp)
    · simp [countSucc]

theorem process_all_invariant (webhook : Nat → Bool) (clock : Nat → String)
    (fs : List Fragment) :
    ∀ (k : Nat) (d : MessageDeduplicator) (i : String),
    countSucc i (process_all webhook clock k d fs).log ≤ 1 ∧
    (is_processed d i = true →
      countSucc i (process_all webhook clock k d fs).log = 0) ∧
    (1 ≤ countSucc i (process_all webhook clock k d fs).log →
      is_processed (process_all webhook clock k d fs).dedup i = true) ∧
    (is_processed d i = true →
      is_processed (process_all webhook clock k d fs).dedup i = true) := by
  induction fs with
  | nil => intro k d i; simp [process_all, countSucc]
  | cons pc rest ih =>
    intro k d i
    obtain ⟨h1, h2, h3, h4⟩ := pm_invariant webhook clock k d pc i
    obtain ⟨g1, g2, g3, g4⟩ :=
      ih (process_message webhook clock k d pc).calls
        (process_message webhook clock k d pc).dedup i
    simp only [process_all, countSucc_append]
    refine ⟨?_, ?_, ?_, ?_⟩
    · rcases Nat.eq_zero_or_pos (countSucc i (process_message webhook clock k d pc).log) with hz | hp
      · omega
      · have := g2 (h3 hp)
        omega
    · intro hp
      have := h2 hp
      have := g2 (h4 hp)
      omega
    · intro hc
      rcases Nat.eq_zero_or_pos (countSucc i (process_message webhook clock k d pc).log) with hz | hp
      · exact g3 (by omega)
      · exact g4 (h3 hp)
    · intro hp
      exact g4 (h4 hp)

/-- C1: across two consecutive `poll_once` cycles over the same dump text
(hence the same extracted fragment sequence), every identity has at most
one successful webhook dispatch in total: a successfully dispatched
identity is marked in the deduplicator, and the second cycle's membership
check then produces no further dispatch of it (its success count in the
second cycle is zero). -/
theorem C1_at_most_once_across_cycles
    (webhook : Nat → Bool) (clock : Nat → String) (k : Nat)
    (d : MessageDeduplicator) (text : Option String) (i : String) :
    countSucc i ((poll_once webhook clock k d text).log ++
      (poll_once webhook clock (poll_once webhook clock k d text).calls
        (poll_once webhook clock k d text).dedup text).log) ≤ 1 ∧
    (1 ≤ countSucc i (poll_once webhook clock k d text).log →
      is_processed (poll_once webhook clock k d text).dedup i = true ∧
      countSucc i (poll_once webhook clock
        (poll_once webhook clock k d text).calls
        (poll_once webhook clock k d text).dedup text).log = 0) := by
  cases text with
  | none => simp [poll_once, countSucc]
  | some t =>
    simp only [poll_once]
    obtain ⟨h1, h2, h3, h4⟩ :=
      process_all_invariant webhook clock (extract_pushcontent t) k d i
    obtain ⟨g1, g2, g3, g4⟩ :=
      process_all_invariant webhook clock (extract_pushcontent t)
        (process_all webhook clock k d (extract_pushcontent t)).calls
        (process_all webhook clock k d (extract_pushcontent t)).dedup i
    rw [countSucc_append]
    constructor
    · rcases Nat.eq_zero_or_pos
        (countSucc i (process_all webhook clock k d (extract_pushcontent t)).log) with hz | hp
      · omega
      · have := g2 (h3 hp)
        omega
    · intro hp
      exact ⟨h3 hp, g2 (h3 hp)⟩

/-- The exact dump-text rendering of one well-formed `pushcontent` tag with
the given capture-group values, as matched by the extraction pattern. -/
def tagStr (f : Fragment) : String :=
  "<pushcontent content=\"" ++ f.content ++ "\" nickname=\"" ++ f.nickname ++ "\" />"

theorem litPrefix_append (lit rest : List Char) :
    litPrefix lit (lit ++ rest) = some rest := by
  induction lit with
  | nil => rfl
  | cons c cs ih => simp [litPrefix, ih]

theorem captureToQuote_append (xs rest : List Char) (h : ¬ '"' ∈ xs) :
    captureToQuote (xs ++ '"' :: rest) = some (xs, rest) := by
  induction xs with
  | nil => simp [captureToQuote]
  | cons c cs ih =>
    simp only [List.mem_cons, not_or] at h
    have hc : ¬ c = '"' := fun hh => h.1 hh.symm
    simp [captureToQuote, hc, ih h.2]

/-- A well-formed tag whose capture groups contain no double quote matches
at the front of the input, yielding exactly its fragment. -/
theorem matchTag_tag (f : Fragment) (rest : List Char)
    (hc : ¬ '"' ∈ f.content.data) (hn : ¬ '"' ∈ f.nickname.data) :
    matchTag ((tagStr f).data ++ rest) = some (f, rest) := by
  have hdata : (tagStr f).data ++ rest =
      "<pushcontent".data ++ (' ' :: ("content=\"".data ++ (f.content.data ++
        ('"' :: (' ' :: ("nickname=\"".data ++ (f.nickname.data ++
          ('"' :: ' ' :: '/' :: '>' :: rest)))))))) := by
    simp [tagStr, strDataAppend]
  rw [hdata]
  simp [matchTag, litPrefix_append, spaces1, List.dropWhile, isPySpace,
    captureToQuote_append, hc, hn, litPrefix]

theorem scanTags_cons_tag (f : Fragment) (rest : List Char) (fuel : Nat)
    (hc : ¬ '"' ∈ f.content.data) (hn : ¬ '"' ∈ f.nickname.data)
    (hfuel : ((tagStr f).data ++ rest).length ≤ fuel) :
    scanTagsFuel fuel ((tagStr f).data ++ rest) =
      f :: scanTagsFuel rest.length rest := by
  have hcons : (tagStr f).data ++ rest =
      '<' :: ("pushcontent content=\"".data ++ (f.content.data ++
        ("\" nickname=\"".data ++ (f.nickname.data ++
          ("\" />".data ++ rest))))) := by
    simp [tagStr, strDataAppend]
  have hlen : ((tagStr f).data ++ rest).length = 38 +
      f.content.length + f.nickname.length + rest.length := by
    rw [hcons]; simp; omega
  have hm := matchTag_tag f rest hc hn
  rw [hcons] at hm
  cases fuel with
  | zero => omega
  | succ n =>
    rw [hcons]
    simp only [scanTagsFuel, hm]
    congr 1
    exact scanTagsFuel_eq n rest.length rest (by omega) (by omega)

theorem extract_cons_tag (f : Fragment) (rest : String)
    (hc : ¬ '"' ∈ f.content.data) (hn : ¬ '"' ∈ f.nickname.data) :
    extract_pushcontent (tagStr f ++ rest) = f :: extract_pushcontent rest := by
  unfold extract_pushcontent
  rw [strDataAppend]
  exact scanTags_cons_tag f rest.data _ hc hn (Nat.le_refl _)

set_option maxRecDepth 40000 in
/-- C6: `_extract_pushcontent` is total and returns the tag-pattern matches
in left-to-right source order, without deduplication: it returns `[]` on
empty input; a well-formed tag at the front of the text contributes
exactly its fragment followed by the scan of the remaining text (hence
source order and no partial extraction); a duplicated tag yields its
fragment twice; and the dump text containing three well-formed tags with a
malformed tag (no closing `/>` before the next `<`) interleaved yields
exactly the three fragments in source order. -/
theorem C6_extraction_ordered_skip_malformed :
    extract_pushcontent "" = [] ∧
    (∀ (f : Fragment) (rest : String),
      ¬ '"' ∈ f.content.data → ¬ '"' ∈ f.nickname.data →
      extract_pushcontent (tagStr f ++ rest) = f :: extract_pushcontent rest) ∧
    (∀ f : Fragment, ¬ '"' ∈ f.content.data → ¬ '"' ∈ f.nickname.data →
      extract_pushcontent (tagStr f ++ (tagStr f ++ "")) = [f, f]) ∧
    extract_pushcontent
      ("<pushcontent content=\"a\" nickname=\"Bob\" /><junk/><pushcontent content=\"b\" nickname=\"群聊\"/><pushcontent content=\"broken\" nickname=\"x\" <pushcontent  content=\"c\"   nickname=\"Y\"  />") =
      [⟨"a", "Bob"⟩, ⟨"b", "群聊"⟩, ⟨"c", "Y"⟩] := by
  refine ⟨rfl, extract_cons_tag, ?_, by decide⟩
  intro f hc hn
  rw [extract_cons_tag f _ hc hn, extract_cons_tag f _ hc hn]
  rfl

/-- Witness for C6 at a concrete quote-free fragment. -/
theorem C6_extraction_witness :
    (¬ '"' ∈ ("hi" : String).data) ∧ (¬ '"' ∈ ("Bob" : String).data) ∧
    extract_pushcontent (tagStr ⟨"hi", "Bob"⟩ ++ "") = [⟨"hi", "Bob"⟩] := by
  refine ⟨by decide, by decide, ?_⟩
  rw [C6_extraction_ordered_skip_malformed.2.1 ⟨"hi", "Bob"⟩ ""
    (by decide) (by decide)]
  rw [C6_extraction_ordered_skip_malformed.1]

/-- C9: `MessageDeduplicator` construction is total (`newDeduplicator` is a
Lean function, mirroring the try/except in `_load`), an absent state file
yields the empty set, any file whose JSON parse fails yields the empty set
(so `is_known` is false for every identity), and a file that parses but
whose `processed_ids` value makes `set(...)` raise (here: a number) also
yields the empty set. -/
theorem C9_load_failure_empty :
    (∀ x, is_processed (newDeduplicator none) x = false) ∧
    (∀ text : String, PyJson.loads text = none →
      ∀ x, is_processed (newDeduplicator (some text)) x = false) ∧
    (∀ x, is_processed
      (newDeduplicator (some "\x7b\"processed_ids\": 5\x7d")) x = false) := by
  refine ⟨fun x => rfl, ?_, fun x => rfl⟩
  intro text h x
  simp [is_processed, newDeduplicator, loadIds, h]

/-- Witness for C9 at a concrete unparsable file. -/
theorem C9_load_failure_witness :
    PyJson.loads "not json" = none ∧
    is_processed (newDeduplicator (some "not json")) "x" = false :=
  ⟨rfl, C9_load_failure_empty.2.1 "not json" rfl "x"⟩

/-- C8: `mark_processed` is idempotent: with the same timestamp the second
call is a no-op on the whole state (in-memory set and persisted file);
with any timestamps the in-memory set is unchanged by the second call,
`is_processed` stays true, and the id occurs exactly once in the
serialized `processed_ids` collection (the persisted file is
`dumpsState` of exactly `processed_ids`). -/
theorem C8_mark_idempotent (d : MessageDeduplicator) (i t t2 : String)
    (hnd : d.processed_ids.Nodup) :
    mark_processed i t (mark_processed i t d) = mark_processed i t d ∧
    (mark_processed i t2 (mark_processed i t d)).processed_ids =
      (mark_processed i t d).processed_ids ∧
    is_processed (mark_processed i t2 (mark_processed i t d)) i = true ∧
    (mark_processed i t2 (mark_processed i t d)).processed_ids.count i = 1 := by
  have hins : (d.processed_ids.insert i).insert i = d.processed_ids.insert i := by
    by_cases h : i ∈ d.processed_ids <;> simp [List.insert, h]
  have hmem : i ∈ d.processed_ids.insert i := by
    by_cases h : i ∈ d.processed_ids <;> simp [List.insert, h]
  have hndi : (d.processed_ids.insert i).Nodup := hnd.insert
  refine ⟨?_, ?_, ?_, ?_⟩
  · simp [mark_processed, hins]
  · simp [mark_processed, hins]
  · simp [is_processed, mark_processed, List.elem_iff, hins, hmem]
  · simp only [mark_processed, hins]
    exact List.count_eq_one_of_mem hndi hmem

/-- Witness for C8 on a fresh store. -/
theorem C8_mark_idempotent_witness :
    (newDeduplicator none).processed_ids.Nodup ∧
    mark_processed "a" "T1" (mark_processed "a" "T1" (newDeduplicator none)) =
      mark_processed "a" "T1" (newDeduplicator none) :=
  ⟨by decide, (C8_mark_idempotent (newDeduplicator none) "a" "T1" "T2"
    (by decide)).1⟩

/-- Characters that Python's JSON encoder emits verbatim inside a string
literal: not the quote, not the backslash, not a control character. -/
def jsonSafeChar (c : Char) : Prop := c ≠ '"' ∧ c ≠ '\\' ∧ 32 ≤ c.toNat

instance (c : Char) : Decidable (jsonSafeChar c) := by
  unfold jsonSafeChar; infer_instance

def jsonSafeStr (s : String) : Prop := ∀ c ∈ s.data, jsonSafeChar c

instance (s : String) : Decidable (jsonSafeStr s) := by
  unfold jsonSafeStr; infer_instance

theorem hexDigit_safe : ∀ n, n < 16 → jsonSafeChar (MD5.hexDigit n) := by decide

theorem bytesToHex_safe (l : List Nat) :
    ∀ c ∈ MD5.bytesToHex l, jsonSafeChar c := by
  induction l with
  | nil => simp [MD5.bytesToHex]
  | cons b t ih =>
    intro c hc
    simp only [MD5.bytesToHex, List.mem_cons] at hc
    rcases hc with h | h | h
    · exact h ▸ hexDigit_safe _ (Nat.mod_lt _ (by omega))
    · exact h ▸ hexDigit_safe _ (Nat.mod_lt _ (by omega))
    · exact ih c h

theorem compute_message_id_safe (g : Bool) (s c : String) :
    jsonSafeStr (compute_message_id g s c) := fun ch hch =>
  bytesToHex_safe _ ch hch

theorem escChar_safe {c : Char} (h : jsonSafeChar c) : PyJson.escChar c = [c] := by
  obtain ⟨h1, h2, h3⟩ := h
  simp only [PyJson.escChar]
  rw [if_neg h1, if_neg h2]
  split_ifs with e3 e4 e5 e6 e7 e8
  · subst e3; exact absurd h3 (by decide)
  · subst e4; exact absurd h3 (by decide)
  · subst e5; exact absurd h3 (by decide)
  · subst e6; exact absurd h3 (by decide)
  · subst e7; exact absurd h3 (by decide)
  · omega
  · rfl

theorem encStr_data {s : String} (h : jsonSafeStr s) :
    (PyJson.encStr s).data = '"' :: (s.data ++ ['"']) := by
  show '"' :: (s.data.flatMap PyJson.escChar ++ ['"']) = _
  congr 1
  have key : ∀ l : List Char, (∀ c ∈ l, jsonSafeChar c) →
      l.flatMap PyJson.escChar = l := by
    intro l hl
    induction l with
    | nil => rfl
    | cons c cs ih =>
      simp only [List.mem_cons, forall_eq_or_imp] at hl
      simp [List.flatMap_cons, escChar_safe hl.1, ih hl.2]
  rw [key s.data h]

theorem parseStrBody_plain (xs rest : List Char) (h : ∀ c ∈ xs, jsonSafeChar c) :
    PyJson.parseStrBody (xs ++ '"' :: rest) = some (xs, rest) := by
  induction xs with
  | nil =>
    simp only [List.nil_append]
    rw [PyJson.parseStrBody.eq_def]
    simp
  | cons c cs ih =>
    simp only [List.mem_cons, forall_eq_or_imp] at h
    obtain ⟨⟨h1, h2, h3⟩, hcs⟩ := h
    simp only [List.cons_append]
    rw [PyJson.parseStrBody.eq_def]
    simp only [if_neg h1, if_neg h2, if_neg (show ¬ c.toNat < 32 by omega),
      ih hcs]

/-- JSON insignificant whitespace characters. -/
def wsChar (c : Char) : Prop := c = ' ' ∨ c = '\n' ∨ c = '\t' ∨ c = '\r'

theorem skipWs_ws_append (pre cs : List Char) (h : ∀ c ∈ pre, wsChar c) :
    PyJson.skipWs (pre ++ cs) = PyJson.skipWs cs := by
  induction pre with
  | nil => rfl
  | cons c p ih =>
    simp only [List.mem_cons, forall_eq_or_imp] at h
    have hc : (c = ' ' || c = '\n' || c = '\t' || c = '\r') = true := by
      rcases h.1 with h | h | h | h <;> simp [h]
    simp only [List.cons_append, PyJson.skipWs, hc, if_pos]
    exact ih h.2

theorem parseVal_str (fuel : Nat) (pre tail : List Char) (s : String)
    (hs : jsonSafeStr s) (hpre : ∀ c ∈ pre, wsChar c) (hfuel : 1 ≤ fuel) :
    PyJson.parseVal fuel (pre ++ ((PyJson.encStr s).data ++ tail)) =
      some (PyJson.JVal.jstr s, tail) := by
  cases fuel with
  | zero => omega
  | succ n =>
    have hdat : (PyJson.encStr s).data ++ tail = '"' :: (s.data ++ '"' :: tail) := by
      rw [encStr_data hs]; simp
    rw [PyJson.parseVal, skipWs_ws_append pre _ hpre, hdat]
    simp [PyJson.skipWs, PyJson.parseStrBody, parseStrBody_plain s.data tail hs]

theorem parseElems_items (l : List String) :
    ∀ (fuel : Nat) (pre rest : List Char),
    l ≠ [] → (∀ i ∈ l, jsonSafeStr i) → (∀ c ∈ pre, wsChar c) →
    l.length + 1 ≤ fuel →
    PyJson.parseElems fuel
        (pre ++ ((PyJson.encItems l).data ++ ('\n' :: ' ' :: ' ' :: ']' :: rest))) =
      some (l.map PyJson.JVal.jstr, rest) := by
  induction l with
  | nil => intro _ _ _ hne; exact absurd rfl hne
  | cons x xs ih =>
    intro fuel pre rest _ hsafe hpre hfuel
    simp only [List.mem_cons, forall_eq_or_imp] at hsafe
    cases fuel with
    | zero => omega
    | succ n =>
      cases xs with
      | nil =>
        rw [PyJson.parseElems]
        have : (PyJson.encItems [x]).data ++ ('\n' :: ' ' :: ' ' :: ']' :: rest) =
            (PyJson.encStr x).data ++ ('\n' :: ' ' :: ' ' :: ']' :: rest) := rfl
        rw [this, parseVal_str n pre _ x hsafe.1 hpre (by simp at hfuel; omega)]
        simp [PyJson.skipWs]
      | cons y ys =>
        rw [PyJson.parseElems]
        have hspl : (PyJson.encItems (x :: y :: ys)).data ++
            ('\n' :: ' ' :: ' ' :: ']' :: rest) =
            (PyJson.encStr x).data ++ (',' :: ('\n' :: ' ' :: ' ' :: ' ' :: ' ' :: []
              ++ ((PyJson.encItems (y :: ys)).data ++ ('\n' :: ' ' :: ' ' :: ']' :: rest)))) := by
          show (PyJson.encStr x ++ ",\n    " ++ PyJson.encItems (y :: ys)).data ++ _ = _
          simp [strDataAppend]
        rw [hspl, parseVal_str n pre _ x hsafe.1 hpre (by simp at hfuel; omega)]
        have hrec := ih n ('\n' :: ' ' :: ' ' :: ' ' :: ' ' :: []) rest
          (by simp) hsafe.2 (by intro c hc; fin_cases hc <;> simp [wsChar])
          (by simp at hfuel ⊢; omega)
        simp only [List.cons_append, List.nil_append] at hrec ⊢
        simp [PyJson.skipWs, hrec]

theorem parseVal_encArr (l : List String) (hl : ∀ i ∈ l, jsonSafeStr i) :
    ∀ (n : Nat) (after : List Char), l.length + 2 ≤ n →
    PyJson.parseVal n (' ' :: ((PyJson.encArr l).data ++ after)) =
      some (PyJson.JVal.jarr (l.map PyJson.JVal.jstr), after) := by
  intro n after hn
  obtain ⟨m, rfl⟩ : ∃ m, n = m + 1 := ⟨n - 1, by omega⟩
  rw [PyJson.parseVal]
  cases l with
  | nil =>
    have h0 : (PyJson.encArr []).data ++ after = '[' :: ']' :: after := rfl
    rw [h0]
    simp [PyJson.skipWs]
  | cons x xs =>
    have hx : jsonSafeStr x := hl x (List.mem_cons_self x xs)
    have harr : (PyJson.encArr (x :: xs)).data ++ after =
        '[' :: '\n' :: ' ' :: ' ' :: ' ' :: ' ' ::
          ((PyJson.encItems (x :: xs)).data ++ ('\n' :: ' ' :: ' ' :: ']' :: after)) := by
      show ("[\n    " ++ PyJson.encItems (x :: xs) ++ "\n  ]" : String).data ++ after = _
      simp [strDataAppend]
    obtain ⟨S, hS⟩ : ∃ S, (PyJson.encItems (x :: xs)).data = '"' :: S := by
      cases xs with
      | nil =>
        refine ⟨x.data ++ ['"'], ?_⟩
        show (PyJson.encStr x).data = _
        rw [encStr_data hx]
      | cons y ys =>
        refine ⟨x.data ++ ['"'] ++ (',' :: '\n' :: ' ' :: ' ' :: ' ' :: ' ' ::
          (PyJson.encItems (y :: ys)).data), ?_⟩
        show (PyJson.encStr x ++ ",\n    " ++ PyJson.encItems (y :: ys)).data = _
        simp [strDataAppend, encStr_data hx]
    have hitems := parseElems_items (x :: xs) m [] after (by simp)
      hl (by simp) (by simp; simp at hn; omega)
    rw [harr]
    simp only [PyJson.skipWs, List.nil_append] at hitems ⊢
    rw [hS] at hitems ⊢
    simp only [List.cons_append] at hitems ⊢
    simp [PyJson.skipWs, hitems]

theorem encItems_length_ge (l : List String) :
    l.length ≤ (PyJson.encItems l).data.length := by
  induction l with
  | nil => simp
  | cons x xs ih =>
    cases xs with
    | nil =>
      show 1 ≤ (PyJson.encStr x).data.length
      show 1 ≤ ('"' :: _).length
      simp
    | cons y ys =>
      have : PyJson.encItems (x :: y :: ys) =
          PyJson.encStr x ++ ",\n    " ++ PyJson.encItems (y :: ys) := rfl
      rw [this]
      simp only [strDataAppend, List.length_append, List.length_cons]
      have h2 : 1 ≤ (PyJson.encStr x).data.length := by
        show 1 ≤ ('"' :: _).length
        simp
      simp at ih ⊢
      omega

theorem dumpsState_data (l : List String) (ts : String) :
    (PyJson.dumpsState l ts).data =
      '\x7b' :: '\n' :: ' ' :: ' ' :: '"' :: ("processed_ids".data ++
        ('"' :: ':' :: ' ' :: ((PyJson.encArr l).data ++
          (',' :: '\n' :: ' ' :: ' ' :: '"' :: ("last_update".data ++
            ('"' :: ':' :: ' ' :: ((PyJson.encStr ts).data ++
              ('\n' :: '\x7d' :: [])))))))) := by
  show ("\x7b\n  \"processed_ids\": " ++ PyJson.encArr l ++
    ",\n  \"last_update\": " ++ PyJson.encStr ts ++ "\n\x7d" : String).data = _
  simp [strDataAppend]


theorem parseMembers_last (ts : String) (hts : jsonSafeStr ts) :
    ∀ g : Nat, 2 ≤ g →
    PyJson.parseMembers g ('\n' :: ' ' :: ' ' :: '"' :: ("last_update".data ++
      ('"' :: ':' :: ' ' :: ((PyJson.encStr ts).data ++ ('\n' :: '\x7d' :: []))))) =
      some ([("last_update", PyJson.JVal.jstr ts)], []) := by
  intro g hg
  obtain ⟨u, rfl⟩ : ∃ u, g = u + 1 := ⟨g - 1, by omega⟩
  rw [PyJson.parseMembers]
  have e1 : PyJson.skipWs ('\n' :: ' ' :: ' ' :: '"' :: ("last_update".data ++
      ('"' :: ':' :: ' ' :: ((PyJson.encStr ts).data ++ ('\n' :: '\x7d' :: []))))) =
      '"' :: ("last_update".data ++
        ('"' :: ':' :: ' ' :: ((PyJson.encStr ts).data ++ ('\n' :: '\x7d' :: [])))) := rfl
  rw [e1]
  have e2 : PyJson.parseStrBody ("last_update".data ++
      ('"' :: ':' :: ' ' :: ((PyJson.encStr ts).data ++ ('\n' :: '\x7d' :: [])))) =
      some ("last_update".data,
        ':' :: ' ' :: ((PyJson.encStr ts).data ++ ('\n' :: '\x7d' :: []))) :=
    parseStrBody_plain _ _ (by decide)
  simp only [e2]
  have e3 : PyJson.skipWs (':' :: ' ' :: ((PyJson.encStr ts).data ++
      ('\n' :: '\x7d' :: []))) = ':' :: (' ' :: ((PyJson.encStr ts).data ++
      ('\n' :: '\x7d' :: []))) := rfl
  simp only [e3]
  have e4 := parseVal_str u [' '] ('\n' :: '\x7d' :: []) ts hts (by simp [wsChar]) (by omega)
  simp only [List.cons_append, List.nil_append] at e4
  simp only [e4]
  have e5 : PyJson.skipWs ('\n' :: '\x7d' :: []) = '\x7d' :: [] := rfl
  simp only [e5]

theorem parseMembers_doc (l : List String) (ts : String)
    (hl : ∀ i ∈ l, jsonSafeStr i) (hts : jsonSafeStr ts) :
    ∀ g : Nat, l.length + 4 ≤ g →
    PyJson.parseMembers g ('"' :: ("processed_ids".data ++ ('"' :: ':' :: ' ' ::
      ((PyJson.encArr l).data ++ (',' :: '\n' :: ' ' :: ' ' :: '"' ::
        ("last_update".data ++ ('"' :: ':' :: ' ' ::
          ((PyJson.encStr ts).data ++ ('\n' :: '\x7d' :: []))))))))) =
      some ([("processed_ids", PyJson.JVal.jarr (l.map PyJson.JVal.jstr)),
             ("last_update", PyJson.JVal.jstr ts)], []) := by
  intro g hg
  obtain ⟨u, rfl⟩ : ∃ u, g = u + 1 := ⟨g - 1, by omega⟩
  rw [PyJson.parseMembers]
  have e1 : PyJson.skipWs ('"' :: ("processed_ids".data ++ ('"' :: ':' :: ' ' ::
      ((PyJson.encArr l).data ++ (',' :: '\n' :: ' ' :: ' ' :: '"' ::
        ("last_update".data ++ ('"' :: ':' :: ' ' ::
          ((PyJson.encStr ts).data ++ ('\n' :: '\x7d' :: []))))))))) =
      '"' :: ("processed_ids".data ++ ('"' :: ':' :: ' ' ::
        ((PyJson.encArr l).data ++ (',' :: '\n' :: ' ' :: ' ' :: '"' ::
          ("last_update".data ++ ('"' :: ':' :: ' ' ::
            ((PyJson.encStr ts).data ++ ('\n' :: '\x7d' :: [])))))))) := rfl
  rw [e1]
  have e2 : PyJson.parseStrBody ("processed_ids".data ++ ('"' :: ':' :: ' ' ::
      ((PyJson.encArr l).data ++ (',' :: '\n' :: ' ' :: ' ' :: '"' ::
        ("last_update".data ++ ('"' :: ':' :: ' ' ::
          ((PyJson.encStr ts).data ++ ('\n' :: '\x7d' :: [])))))))) =
      some ("processed_ids".data, ':' :: ' ' ::
        ((PyJson.encArr l).data ++ (',' :: '\n' :: ' ' :: ' ' :: '"' ::
          ("last_update".data ++ ('"' :: ':' :: ' ' ::
            ((PyJson.encStr ts).data ++ ('\n' :: '\x7d' :: []))))))) :=
    parseStrBody_plain _ _ (by decide)
  simp only [e2]
  have e3 : ∀ X : List Char, PyJson.skipWs (':' :: ' ' :: X) = ':' :: (' ' :: X) :=
    fun X => rfl
  simp only [e3]
  have e4 := parseVal_encArr l hl (u + 1 - 1)
    (',' :: '\n' :: ' ' :: ' ' :: '"' :: ("last_update".data ++ ('"' :: ':' :: ' ' ::
      ((PyJson.encStr ts).data ++ ('\n' :: '\x7d' :: []))))) (by omega)
  simp only [Nat.add_sub_cancel] at e4
  simp only [e4]
  have e5 : ∀ X : List Char, PyJson.skipWs (',' :: X) = ',' :: X := fun X => rfl
  simp only [e5]
  rw [parseMembers_last ts hts u (by omega)]


theorem loads_dumpsState (l : List String) (ts : String)
    (hl : ∀ i ∈ l, jsonSafeStr i) (hts : jsonSafeStr ts) :
    PyJson.loads (PyJson.dumpsState l ts) =
      some (PyJson.JVal.jobj
        [("processed_ids", PyJson.JVal.jarr (l.map PyJson.JVal.jstr)),
         ("last_update", PyJson.JVal.jstr ts)]) := by
  have hlen : l.length + 8 ≤ 2 * (PyJson.dumpsState l ts).length + 2 := by
    have h1 := encItems_length_ge l
    show _ ≤ 2 * (PyJson.dumpsState l ts).data.length + 2
    rw [dumpsState_data]
    cases l with
    | nil =>
      have e : (PyJson.encArr ([] : List String)).data.length = 2 := rfl
      simp [e]
      omega
    | cons x xs =>
      have e : (PyJson.encArr (x :: xs)).data.length =
          10 + (PyJson.encItems (x :: xs)).data.length := by
        show ("[\n    " ++ PyJson.encItems (x :: xs) ++ "\n  ]" : String).data.length = _
        simp [strDataAppend]
        omega
      simp [e]
      simp at h1
      omega
  unfold PyJson.loads
  obtain ⟨m, hm, hmb⟩ : ∃ m, 2 * (PyJson.dumpsState l ts).length + 2 = m + 1 ∧
      l.length + 4 ≤ m :=
    ⟨2 * (PyJson.dumpsState l ts).length + 1, by omega, by omega⟩
  rw [hm]
  have estep : PyJson.parseVal (m + 1) ((PyJson.dumpsState l ts).data) =
      (match PyJson.parseMembers m ('"' :: ("processed_ids".data ++
        ('"' :: ':' :: ' ' :: ((PyJson.encArr l).data ++
          (',' :: '\n' :: ' ' :: ' ' :: '"' :: ("last_update".data ++
            ('"' :: ':' :: ' ' :: ((PyJson.encStr ts).data ++
              ('\n' :: '\x7d' :: []))))))))) with
       | some (ms, r) => some (PyJson.JVal.jobj ms, r)
       | none => none) := by
    rw [dumpsState_data]
    rfl
  rw [estep, parseMembers_doc l ts hl hts m (by omega)]
  rfl

theorem filterMap_jstr (l : List String) :
    List.filterMap (fun x =>
        match x with
        | PyJson.JVal.jstr s => some s
        | _ => none) (l.map PyJson.JVal.jstr) = l := by
  induction l with
  | nil => rfl
  | cons x xs ih => simp [List.filterMap_cons, ih]

theorem any_jstr (l : List String) :
    (l.map PyJson.JVal.jstr).any (fun x =>
        match x with
        | PyJson.JVal.jarr _ => true
        | PyJson.JVal.jobj _ => true
        | _ => false) = false := by
  induction l with
  | nil => rfl
  | cons x xs ih => simp [List.any_cons, ih]

theorem pySetStrings_map_jstr (l : List String) :
    pySetStrings (PyJson.JVal.jarr (l.map PyJson.JVal.jstr)) = some l.dedup := by
  simp only [pySetStrings, any_jstr, Bool.false_eq_true, if_false, filterMap_jstr]

theorem loadIds_dumpsState (l : List String) (ts : String)
    (hl : ∀ i ∈ l, jsonSafeStr i) (hts : jsonSafeStr ts) :
    loadIds (some (PyJson.dumpsState l ts)) = l.dedup := by
  simp only [loadIds, loads_dumpsState l ts hl hts]
  have hget : getKey [("processed_ids", PyJson.JVal.jarr (l.map PyJson.JVal.jstr)),
      ("last_update", PyJson.JVal.jstr ts)] "processed_ids" =
      some (PyJson.JVal.jarr (l.map PyJson.JVal.jstr)) := by
    simp [getKey, List.find?]
  simp only [hget, pySetStrings_map_jstr, Option.getD_some]

/-- Marking a list of identities one after the other (the same clock value
for each save; the timestamp affects no claim below). -/
def markAll (ids : List String) (ts : String) (d : MessageDeduplicator) :
    MessageDeduplicator :=
  ids.foldl (fun d i => mark_processed i ts d) d

theorem markAll_mem (ts : String) (ids : List String) :
    ∀ (d : MessageDeduplicator) (x : String),
    x ∈ (markAll ids ts d).processed_ids ↔ x ∈ ids ∨ x ∈ d.processed_ids := by
  induction ids with
  | nil => intro d x; simp [markAll]
  | cons i rest ih =>
    intro d x
    show x ∈ (markAll rest ts (mark_processed i ts d)).processed_ids ↔ _
    rw [ih]
    simp [mark_processed, List.mem_insert_iff]
    tauto

theorem markAll_nodup (ts : String) (ids : List String) :
    ∀ d : MessageDeduplicator, d.processed_ids.Nodup →
    (markAll ids ts d).processed_ids.Nodup := by
  induction ids with
  | nil => intro d h; exact h
  | cons i rest ih =>
    intro d h
    exact ih (mark_processed i ts d) (h.insert)

theorem markAll_storage (ts : String) (ids : List String) :
    ∀ d : MessageDeduplicator, ids ≠ [] →
    (markAll ids ts d).storage =
      some (PyJson.dumpsState (markAll ids ts d).processed_ids ts) := by
  induction ids with
  | nil => intro d h; exact absurd rfl h
  | cons i rest ih =>
    intro d _
    cases rest with
    | nil => rfl
    | cons j js =>
      show (markAll (j :: js) ts (mark_processed i ts d)).storage = _
      exact ih (mark_processed i ts d) (by simp)

/-- C7: round-trip through durable storage preserves the dedup set.
Message identities are always JSON-safe strings (hex digests), and for any
set of JSON-safe identities marked into a fresh store, a new
`MessageDeduplicator` constructed from the resulting storage file answers
`is_processed` true for exactly the marked identities and false for every
other identity. -/
theorem C7_roundtrip_persistence :
    (∀ (g : Bool) (s c : String), jsonSafeStr (compute_message_id g s c)) ∧
    ∀ (ids : List String) (ts : String),
      (∀ i ∈ ids, jsonSafeStr i) → jsonSafeStr ts →
      ∀ x, is_processed (newDeduplicator
          (markAll ids ts (newDeduplicator none)).storage) x = true ↔ x ∈ ids := by
  refine ⟨compute_message_id_safe, ?_⟩
  intro ids ts hids hts x
  cases ids with
  | nil => simp [markAll, is_processed, newDeduplicator, loadIds]
  | cons i rest =>
    have hst := markAll_storage ts (i :: rest) (newDeduplicator none) (by simp)
    have hmemD : ∀ y, y ∈ (markAll (i :: rest) ts (newDeduplicator none)).processed_ids
        ↔ y ∈ i :: rest := by
      intro y
      rw [markAll_mem]
      simp [newDeduplicator, loadIds]
    have hndD : (markAll (i :: rest) ts (newDeduplicator none)).processed_ids.Nodup :=
      markAll_nodup ts _ _ (by simp [newDeduplicator, loadIds])
    have hsafeD : ∀ y ∈ (markAll (i :: rest) ts (newDeduplicator none)).processed_ids,
        jsonSafeStr y := fun y hy => hids y ((hmemD y).mp hy)
    rw [hst]
    show (loadIds (some (PyJson.dumpsState
      (markAll (i :: rest) ts (newDeduplicator none)).processed_ids ts))).contains x
        = true ↔ _
    rw [loadIds_dumpsState _ ts hsafeD hts, List.dedup_eq_self.mpr hndD]
    rw [List.contains_iff_exists_mem_beq]
    simp [List.elem_iff, hmemD x]

/-- Witness for C7 at concrete identities and timestamp. -/
theorem C7_roundtrip_witness :
    (∀ i ∈ ["aa", "bb"], jsonSafeStr i) ∧ jsonSafeStr "T1" ∧
    (is_processed (newDeduplicator
        (markAll ["aa", "bb"] "T1" (newDeduplicator none)).storage) "aa" = true ↔
      "aa" ∈ ["aa", "bb"]) :=
  ⟨by decide, by decide,
    C7_roundtrip_persistence.2 ["aa", "bb"] "T1" (by decide) (by decide) "aa"⟩
